import Mathlib

/-
Formal model of the SAM3S usart_hard_handshaking example
(examples/usart_hard_handshaking/main.c).

The program regulates the byte rate of an incoming USART stream.  Two
interrupt handlers coordinate through shared counters:

* USART1_IrqHandler fires when the PDC receive buffer (BUFFER_SIZE = 1
  byte) is full.  It adds BUFFER_SIZE to the volatile counter
  bytesReceived and, while bytesReceived is below MAX_BPS = 500,
  re-arms another BUFFER_SIZE-byte receive with USART_ReadBuffer;
  otherwise it disables the RXBUFF interrupt (US_IDR), leaving no
  outstanding receive, which makes the hardware assert RTS.

* TC0_IrqHandler fires once per second.  It adds bytesReceived to the
  static uint32_t bytesTotal, formats a report with
  sprintf(pString, "Bps: %4u; Tot: %6u\n\r", ...), writes the 24 bytes
  of pString with USART_WriteBuffer, zeroes bytesReceived, and, if no
  receive is outstanding (US_RCR == 0), re-arms a BUFFER_SIZE-byte
  receive and re-enables the RXBUFF interrupt.

main disables the watchdog, configures pins, USART and TC0, arms the
first receive, enables RXBUFF and loops forever.

The model below embeds both handlers as functions on an explicit state
record.  uint32_t arithmetic is Nat with an explicit % 2 ^ 32.  The
constants MAX_BPS and BUFFER_SIZE are fields of a configuration record
so that statements can speak about RateThreshold and TransferUnit in
general; the reference configuration refConfig is (1, 500) as in the
source.  Events are receive completions and timer ticks; a run is a
fold of the event step function over an event list.  A completion can
only have an effect when a receive is outstanding (armed) and the
RXBUFF interrupt is enabled, matching the hardware.
-/

namespace UsartHH

/-- The two build-time constants of the example: BUFFER_SIZE is the
TransferUnit (bytes per PDC receive request) and MAX_BPS is the
RateThreshold (bytes per epoch before intake is withheld). -/
structure Config where
  BUFFER_SIZE : Nat
  MAX_BPS : Nat
deriving DecidableEq

/-- The reference configuration of the source: BUFFER_SIZE = 1,
MAX_BPS = 500. -/
def refConfig : Config := { BUFFER_SIZE := 1, MAX_BPS := 500 }

/-- State shared by the two handlers.

* bytesReceived : the volatile uint32_t counter (EpochByteCount);
* bytesTotal : the static uint32_t in TC0_IrqHandler (TotalByteCount);
* armed : whether a PDC receive request is outstanding, i.e.
  US_RCR is nonzero (ReceptionArmed);
* rxIrqEnabled : whether the RXBUFF interrupt is enabled (US_IER /
  US_IDR);
* armCalls : cumulative number of USART_ReadBuffer (armReceive) calls,
  recorded so that statements can count arm requests;
* reports : the (epochBytes, totalBytes) pairs emitted so far, oldest
  first, recording the two sprintf arguments of each tick. -/
@[ext] structure MachineState where
  bytesReceived : Nat
  bytesTotal : Nat
  armed : Bool
  rxIrqEnabled : Bool
  armCalls : Nat
  reports : List (Nat × Nat)
deriving DecidableEq

/-- State after main has run its setup: counters zero, the first
receive armed (USART_ReadBuffer at the end of main, one arm call) and
the RXBUFF interrupt enabled. -/
def initState : MachineState :=
  { bytesReceived := 0, bytesTotal := 0, armed := true,
    rxIrqEnabled := true, armCalls := 1, reports := [] }

/-- Body of USART1_IrqHandler for a full receive buffer (US_CSR has
RXBUFF set).  The caller has already recorded that the completed
request is no longer outstanding.  bytesReceived += BUFFER_SIZE with
uint32_t wrap, then either USART_ReadBuffer (arm again) when the new
count is below MAX_BPS, or US_IDR = US_IDR_RXBUFF (disable the RXBUFF
interrupt) otherwise. -/
def USART1_IrqHandler (cfg : Config) (s : MachineState) : MachineState :=
  let br := (s.bytesReceived + cfg.BUFFER_SIZE) % 2 ^ 32
  if br < cfg.MAX_BPS then
    { s with bytesReceived := br, armed := true, armCalls := s.armCalls + 1 }
  else
    { s with bytesReceived := br, rxIrqEnabled := false }

/-- Body of TC0_IrqHandler for an RC compare (TC_SR has CPCS set):
bytesTotal += bytesReceived (uint32_t wrap), emit the report pair
(bytesReceived, bytesTotal), zero bytesReceived, and if US_RCR == 0
(no outstanding receive) call USART_ReadBuffer and re-enable the
RXBUFF interrupt. -/
def TC0_IrqHandler (cfg : Config) (s : MachineState) : MachineState :=
  let total := (s.bytesTotal + s.bytesReceived) % 2 ^ 32
  let s1 : MachineState :=
    { s with bytesTotal := total,
             reports := s.reports ++ [(s.bytesReceived, total)],
             bytesReceived := 0 }
  if s1.armed then s1
  else { s1 with armed := true, rxIrqEnabled := true,
                 armCalls := s1.armCalls + 1 }

/-- The two interrupt events of the system. -/
inductive Event where
  | complete : Event
  | tick : Event
deriving DecidableEq

/-- One event step.  A completion only happens for an outstanding
receive; it first clears the outstanding request (the PDC counter
US_RCR reaches 0, raising RXBUFF) and, with the RXBUFF interrupt
enabled, runs USART1_IrqHandler.  A tick runs TC0_IrqHandler. -/
def step (cfg : Config) (s : MachineState) : Event → MachineState
  | Event.complete =>
      if s.armed && s.rxIrqEnabled then
        USART1_IrqHandler cfg { s with armed := false }
      else s
  | Event.tick => TC0_IrqHandler cfg s

/-- Run a list of events. -/
def run (cfg : Config) (s : MachineState) : List Event → MachineState
  | [] => s
  | e :: es => run cfg (step cfg s e) es

/-- A trace is physically valid from s when every completion event in
it occurs while a receive is outstanding and the RXBUFF interrupt is
enabled: the hardware cannot complete a request that was never made. -/
def validFrom (cfg : Config) (s : MachineState) : List Event → Bool
  | [] => true
  | Event.complete :: es =>
      s.armed && s.rxIrqEnabled && validFrom cfg (step cfg s Event.complete) es
  | Event.tick :: es => validFrom cfg (step cfg s Event.tick) es

/-- Number of completion events of a trace that actually take effect
(arrive with a receive outstanding and the interrupt enabled). -/
def handledFrom (cfg : Config) (s : MachineState) : List Event → Nat
  | [] => 0
  | Event.complete :: es =>
      (if s.armed && s.rxIrqEnabled then 1 else 0) +
        handledFrom cfg (step cfg s Event.complete) es
  | Event.tick :: es => handledFrom cfg (step cfg s Event.tick) es

/-- Number of tick events in a trace. -/
def countTicks : List Event → Nat
  | [] => 0
  | Event.tick :: es => countTicks es + 1
  | Event.complete :: es => countTicks es

/-- Sum of the epochBytes components of a report list. -/
def sumEpoch (l : List (Nat × Nat)) : Nat := (l.map Prod.fst).sum

/-- RTS line state under hardware handshaking: the USART asserts RTS
exactly while the PDC has no receive buffer ("Since no buffer is
provided to the PDC, this will set the RTS line", file header).  So
flow control is asserted iff no receive is outstanding. -/
def rtsAsserted (s : MachineState) : Bool := ! s.armed

/-- A concrete suspended state: the governor reached the threshold and
stopped arming, so no receive is outstanding and the RXBUFF interrupt
is disabled. -/
def suspendedState : MachineState :=
  { bytesReceived := 500, bytesTotal := 0, armed := false,
    rxIrqEnabled := false, armCalls := 500, reports := [] }

/-- One full epoch of the reference configuration: 500 completions
(reaching the threshold) followed by the tick. -/
def epochTrace : List Event :=
  List.replicate 500 Event.complete ++ [Event.tick]

/-- k consecutive full epochs. -/
def kEpochs (k : Nat) : List Event :=
  (List.replicate k epochTrace).flatten

/-
Report formatting.  TC0_IrqHandler formats its report with
sprintf(pString, "Bps: %4u; Tot: %6u\n\r", bytesReceived, bytesTotal)
into char pString[24] and then sends sizeof(pString) = 24 bytes with
USART_WriteBuffer.  The defs below embed the formatted character
sequence: %4u / %6u print the decimal digits of an unsigned value,
space-padded on the left to a minimum field width of 4 / 6 (wider
values widen the field, they are not truncated). -/

/-- Decimal digit character. -/
def digitChar (d : Nat) : Char := Char.ofNat (48 + d)

/-- Decimal digits of n, most significant first, with explicit fuel
(structural recursion so that concrete values reduce). -/
def natCharsAux : Nat → Nat → List Char
  | 0, _ => []
  | f + 1, n =>
      if n < 10 then [digitChar n]
      else natCharsAux f (n / 10) ++ [digitChar (n % 10)]

/-- Decimal digits of n (fuel n + 1 always suffices). -/
def natChars (n : Nat) : List Char := natCharsAux (n + 1) n

/-- %wu formatting: the decimal digits, left-padded with spaces to a
minimum width of w. -/
def padNum (w n : Nat) : List Char :=
  List.replicate (w - (natChars n).length) ' ' ++ natChars n

/-- The characters sprintf produces for
"Bps: %4u; Tot: %6u\n\r" (without the trailing NUL). -/
def reportChars (e t : Nat) : List Char :=
  ( "Bps: ").data ++ padNum 4 e ++ ( "; Tot: ").data ++ padNum 6 t
    ++ [Char.ofNat 10, Char.ofNat 13]

/-- Number of bytes sprintf writes into pString: the formatted
characters plus the terminating NUL. -/
def sprintfBytes (e t : Nat) : Nat := (reportChars e t).length + 1

/-- sizeof(pString): the string buffer is declared char pString[24]. -/
def pStringSize : Nat := 24

/-- The bytes actually transmitted for a report:
USART_WriteBuffer(BOARD_USART_BASE, pString, sizeof(pString)) sends
exactly the first 24 bytes of the formatted string. -/
def emittedChars (e t : Nat) : List Char := (reportChars e t).take 24

/-
Fine-grained (interleaved) model for the concurrency claim.  The
shared counter bytesReceived is volatile, so every mention of it in
the C source is a separate load or store; the micro model makes each
such access one atomic micro operation, with handler-local values held
in explicit register fields.  An interleaving of the two handlers is
then an arbitrary merge of their micro-operation sequences.

USART1_IrqHandler performs, in order (after the completion itself has
cleared the outstanding request):
  creg := load bytesReceived;  store bytesReceived (creg + 1);
  creg := load bytesReceived (the < MAX_BPS test re-reads the
  volatile);  branch on creg < MAX_BPS (arm or disable).

TC0_IrqHandler performs:
  treg := load bytesReceived (for bytesTotal += bytesReceived);
  bytesTotal := bytesTotal + treg;
  treg2 := load bytesReceived (the sprintf argument);
  emit (treg2, bytesTotal);  store bytesReceived 0;
  branch on US_RCR == 0 (re-arm or not).
-/

/-- Micro-model state: the shared and per-handler-local values, using
the reference configuration constants. -/
@[ext] structure MicroState where
  bytesReceived : Nat
  bytesTotal : Nat
  armed : Bool
  rxIrqEnabled : Bool
  armCalls : Nat
  creg : Nat
  treg : Nat
  treg2 : Nat
  reports : List (Nat × Nat)
deriving DecidableEq

/-- Atomic micro operations of the two handlers. -/
inductive MicroOp where
  | cEnter | cLoad | cStore | cLoad2 | cBranch
  | tLoad | tAdd | tLoad2 | tEmit | tZero | tRearm
deriving DecidableEq

/-- Effect of one micro operation (reference configuration:
BUFFER_SIZE = 1, MAX_BPS = 500). -/
def microStep (m : MicroState) : MicroOp → MicroState
  | MicroOp.cEnter => { m with armed := false }
  | MicroOp.cLoad => { m with creg := m.bytesReceived }
  | MicroOp.cStore => { m with bytesReceived := (m.creg + 1) % 2 ^ 32 }
  | MicroOp.cLoad2 => { m with creg := m.bytesReceived }
  | MicroOp.cBranch =>
      if m.creg < 500 then
        { m with armed := true, armCalls := m.armCalls + 1 }
      else { m with rxIrqEnabled := false }
  | MicroOp.tLoad => { m with treg := m.bytesReceived }
  | MicroOp.tAdd => { m with bytesTotal := (m.bytesTotal + m.treg) % 2 ^ 32 }
  | MicroOp.tLoad2 => { m with treg2 := m.bytesReceived }
  | MicroOp.tEmit => { m with reports := m.reports ++ [(m.treg2, m.bytesTotal)] }
  | MicroOp.tZero => { m with bytesReceived := 0 }
  | MicroOp.tRearm =>
      if m.armed then m
      else { m with armed := true, rxIrqEnabled := true,
                    armCalls := m.armCalls + 1 }

/-- Run a sequence of micro operations. -/
def microRun (m : MicroState) : List MicroOp → MicroState
  | [] => m
  | op :: ops => microRun (microStep m op) ops

/-- Micro-op sequence of one completion handler instance. -/
def compOps : List MicroOp :=
  [MicroOp.cEnter, MicroOp.cLoad, MicroOp.cStore, MicroOp.cLoad2,
   MicroOp.cBranch]

/-- Micro-op sequence of one tick handler instance. -/
def tickOps : List MicroOp :=
  [MicroOp.tLoad, MicroOp.tAdd, MicroOp.tLoad2, MicroOp.tEmit,
   MicroOp.tZero, MicroOp.tRearm]

/-- First part of the tick handler: sample, accumulate, emit. -/
def tickPart1 : List MicroOp :=
  [MicroOp.tLoad, MicroOp.tAdd, MicroOp.tLoad2, MicroOp.tEmit]

/-- Second part of the tick handler: reset and re-arm. -/
def tickPart2 : List MicroOp := [MicroOp.tZero, MicroOp.tRearm]

/-- Micro-model state after the setup in main. -/
def microInit : MicroState :=
  { bytesReceived := 0, bytesTotal := 0, armed := true,
    rxIrqEnabled := true, armCalls := 1, creg := 0, treg := 0,
    treg2 := 0, reports := [] }

/-- An interleaved schedule: three completions run to completion, a
fourth completion preempts the first tick between its sampling/emit
part and its reset part, and a second tick then runs alone. -/
def badSchedule : List MicroOp :=
  compOps ++ compOps ++ compOps ++ tickPart1 ++ compOps ++ tickPart2
    ++ tickOps

/-- Number of completion-handler instances in a schedule. -/
def countCompletions (ops : List MicroOp) : Nat :=
  ops.countP (fun op => op = MicroOp.cEnter)

/-
Fallible-arm model for the error-handling claim.  Modelled from the
spec: armReceive(unit) "fails with HardwareFault if the peripheral
cannot accept a new request" (the body of USART_ReadBuffer is library
code outside this source file; its call sites here discard the
returned status).  Each event therefore carries the outcome the
peripheral would give to an arm request made while handling it.  The
aborted flag records whether a fatal stop (abort) has happened; no
statement of the source sets it, because the source has no abort path
and never inspects the USART_ReadBuffer result. -/

/-- State of the fallible-arm model. -/
@[ext] structure MachineStateF where
  bytesReceived : Nat
  bytesTotal : Nat
  armed : Bool
  rxIrqEnabled : Bool
  armCalls : Nat
  reports : List (Nat × Nat)
  aborted : Bool
deriving DecidableEq

/-- State after the setup in main (startup arm succeeded). -/
def initStateF : MachineStateF :=
  { bytesReceived := 0, bytesTotal := 0, armed := true,
    rxIrqEnabled := true, armCalls := 1, reports := [],
    aborted := false }

/-- Modelled from the spec: an armReceive call.  On success the
request becomes outstanding; on HardwareFault it does not.  The call
sites in the source discard the returned status, so the caller state
is otherwise unchanged either way and no abort happens. -/
def armReceiveF (ok : Bool) (s : MachineStateF) : MachineStateF :=
  if ok then { s with armed := true, armCalls := s.armCalls + 1 }
  else { s with armCalls := s.armCalls + 1 }

/-- Events of the fallible model, carrying the outcome an arm request
made during the event would get. -/
inductive EventF where
  | complete : Bool → EventF
  | tick : Bool → EventF
deriving DecidableEq

/-- One event step of the fallible model: the two handler bodies with
every USART_ReadBuffer call replaced by armReceiveF. -/
def stepF (cfg : Config) (s : MachineStateF) : EventF → MachineStateF
  | EventF.complete ok =>
      if s.armed && s.rxIrqEnabled then
        let s0 : MachineStateF := { s with armed := false }
        let br := (s0.bytesReceived + cfg.BUFFER_SIZE) % 2 ^ 32
        if br < cfg.MAX_BPS then
          armReceiveF ok { s0 with bytesReceived := br }
        else { s0 with bytesReceived := br, rxIrqEnabled := false }
      else s
  | EventF.tick ok =>
      let total := (s.bytesTotal + s.bytesReceived) % 2 ^ 32
      let s1 : MachineStateF :=
        { s with bytesTotal := total,
                 reports := s.reports ++ [(s.bytesReceived, total)],
                 bytesReceived := 0 }
      if s1.armed then s1
      else { armReceiveF ok s1 with rxIrqEnabled := true }

/-- Run a list of events in the fallible model. -/
def runF (cfg : Config) (s : MachineStateF) : List EventF → MachineStateF
  | [] => s
  | e :: es => runF cfg (stepF cfg s e) es

/-! Basic unfolding lemmas about runs. -/

theorem run_nil (cfg : Config) (s : MachineState) : run cfg s [] = s := rfl

theorem run_cons (cfg : Config) (s : MachineState) (e : Event) (es : List Event) :
    run cfg s (e :: es) = run cfg (step cfg s e) es := rfl

theorem run_append (cfg : Config) :
    ∀ (l1 l2 : List Event) (s : MachineState),
      run cfg s (l1 ++ l2) = run cfg (run cfg s l1) l2 := by
  intro l1
  induction l1 with
  | nil => intro l2 s; rfl
  | cons e es ih => intro l2 s; simp [run_cons, List.cons_append, ih]

/-! Effect of single steps on the individual fields. -/

theorem reports_step_complete (cfg : Config) (s : MachineState) :
    (step cfg s Event.complete).reports = s.reports := by
  show (if s.armed && s.rxIrqEnabled then
          USART1_IrqHandler cfg { s with armed := false } else s).reports
        = s.reports
  split
  · simp only [USART1_IrqHandler]
    split <;> rfl
  · rfl

theorem total_step_complete (cfg : Config) (s : MachineState) :
    (step cfg s Event.complete).bytesTotal = s.bytesTotal := by
  show (if s.armed && s.rxIrqEnabled then
          USART1_IrqHandler cfg { s with armed := false } else s).bytesTotal
        = s.bytesTotal
  split
  · simp only [USART1_IrqHandler]
    split <;> rfl
  · rfl

theorem total_tick (cfg : Config) (s : MachineState) :
    (TC0_IrqHandler cfg s).bytesTotal
      = (s.bytesTotal + s.bytesReceived) % 2 ^ 32 := by
  simp only [TC0_IrqHandler]
  split <;> rfl

theorem reports_tick (cfg : Config) (s : MachineState) :
    (TC0_IrqHandler cfg s).reports
      = s.reports
        ++ [(s.bytesReceived, (s.bytesTotal + s.bytesReceived) % 2 ^ 32)] := by
  simp only [TC0_IrqHandler]
  split <;> rfl

theorem br_tick (cfg : Config) (s : MachineState) :
    (TC0_IrqHandler cfg s).bytesReceived = 0 := by
  simp only [TC0_IrqHandler]
  split <;> rfl

/-- A suspended governor never arms on further completion events: with
no receive outstanding, completion events have no effect at all. -/
theorem run_noop_of_unarmed (cfg : Config) :
    ∀ (es : List Event) (s : MachineState), s.armed = false →
      (∀ e ∈ es, e = Event.complete) → run cfg s es = s := by
  intro es
  induction es with
  | nil => intro s _ _; rfl
  | cons e es ih =>
      intro s hs hall
      have he : e = Event.complete := hall e (List.mem_cons_self e es)
      subst he
      have hstep : step cfg s Event.complete = s := by
        show (if s.armed && s.rxIrqEnabled then
                USART1_IrqHandler cfg { s with armed := false } else s) = s
        simp [hs]
      rw [run_cons, hstep]
      exact ih s hs (fun e hin => hall e (List.mem_cons_of_mem _ hin))

/-- Claim C1.  On a receive-completion event the governor first adds
BUFFER_SIZE (the TransferUnit) to bytesReceived, then re-arms exactly
one BUFFER_SIZE-sized receive iff the incremented count is strictly
below MAX_BPS (the RateThreshold); once the count has reached MAX_BPS
the completion makes no arm call and further completion events (before
the next tick) make none either. -/
theorem C1_governor_rearm (cfg : Config) (s : MachineState)
    (h : s.armed = true ∧ s.rxIrqEnabled = true) :
    (step cfg s Event.complete).bytesReceived
        = (s.bytesReceived + cfg.BUFFER_SIZE) % 2 ^ 32 ∧
    ((step cfg s Event.complete).bytesReceived < cfg.MAX_BPS →
        (step cfg s Event.complete).armCalls = s.armCalls + 1 ∧
        (step cfg s Event.complete).armed = true) ∧
    (cfg.MAX_BPS ≤ (step cfg s Event.complete).bytesReceived →
        (step cfg s Event.complete).armCalls = s.armCalls ∧
        (step cfg s Event.complete).armed = false ∧
        ∀ es : List Event, (∀ e ∈ es, e = Event.complete) →
          (run cfg (step cfg s Event.complete) es).armCalls = s.armCalls) := by
  obtain ⟨ha, he⟩ := h
  have hstep : step cfg s Event.complete
      = USART1_IrqHandler cfg { s with armed := false } := by
    show (if s.armed && s.rxIrqEnabled then
            USART1_IrqHandler cfg { s with armed := false } else s)
          = USART1_IrqHandler cfg { s with armed := false }
    simp [ha, he]
  rw [hstep]
  simp only [USART1_IrqHandler]
  split
  · rename_i hpos
    refine ⟨rfl, fun _ => ⟨rfl, rfl⟩, fun hge => ?_⟩
    have hge' : cfg.MAX_BPS ≤ (s.bytesReceived + cfg.BUFFER_SIZE) % 2 ^ 32 := hge
    have hpos' : (s.bytesReceived + cfg.BUFFER_SIZE) % 2 ^ 32 < cfg.MAX_BPS := hpos
    exact absurd hge' (Nat.not_le.mpr hpos')
  · rename_i hneg
    refine ⟨rfl, fun hlt2 => ?_, fun _ => ⟨rfl, rfl, fun es hall => ?_⟩⟩
    · have hlt2' : (s.bytesReceived + cfg.BUFFER_SIZE) % 2 ^ 32 < cfg.MAX_BPS := hlt2
      exact absurd hlt2' hneg
    · rw [run_noop_of_unarmed cfg es _ rfl hall]

/-- Witness for C1 at the reference configuration and initial state. -/
theorem C1_governor_rearm_witness :
    (step refConfig initState Event.complete).bytesReceived
        = (initState.bytesReceived + refConfig.BUFFER_SIZE) % 2 ^ 32 ∧
    ((step refConfig initState Event.complete).bytesReceived
          < refConfig.MAX_BPS →
        (step refConfig initState Event.complete).armCalls
            = initState.armCalls + 1 ∧
        (step refConfig initState Event.complete).armed = true) ∧
    (refConfig.MAX_BPS
          ≤ (step refConfig initState Event.complete).bytesReceived →
        (step refConfig initState Event.complete).armCalls
            = initState.armCalls ∧
        (step refConfig initState Event.complete).armed = false ∧
        ∀ es : List Event, (∀ e ∈ es, e = Event.complete) →
          (run refConfig (step refConfig initState Event.complete) es).armCalls
            = initState.armCalls) :=
  C1_governor_rearm refConfig initState ⟨rfl, rfl⟩

/-- Claim C4.  Exactly one report record is emitted per tick event and
none on completion events: after any run, the number of reports grew
by exactly the number of ticks, whatever the epoch byte counts were. -/
theorem C4_one_report_per_tick (cfg : Config) :
    (∀ (s : MachineState) (es : List Event),
        (run cfg s es).reports.length = s.reports.length + countTicks es) ∧
    (∀ s : MachineState,
        (step cfg s Event.tick).reports.length = s.reports.length + 1) ∧
    (∀ s : MachineState,
        (step cfg s Event.complete).reports.length = s.reports.length) := by
  have htick : ∀ s : MachineState,
      (step cfg s Event.tick).reports.length = s.reports.length + 1 := by
    intro s
    show (TC0_IrqHandler cfg s).reports.length = s.reports.length + 1
    rw [reports_tick]
    simp
  have hcomp : ∀ s : MachineState,
      (step cfg s Event.complete).reports.length = s.reports.length := by
    intro s; rw [reports_step_complete]
  refine ⟨?_, htick, hcomp⟩
  intro s es
  induction es generalizing s with
  | nil => simp [run_nil, countTicks]
  | cons e es ih =>
      cases e with
      | complete =>
          rw [run_cons]
          rw [ih (step cfg s Event.complete), hcomp]
          rfl
      | tick =>
          rw [run_cons]
          rw [ih (step cfg s Event.tick), htick]
          simp [countTicks]
          omega

/-- Claim C5.  If the governor had suspended intake (no receive
outstanding), the tick handler unconditionally re-arms one receive,
re-enables the RXBUFF interrupt, and thereby releases flow control
(RTS deasserts as soon as the PDC has a buffer again). -/
theorem C5_tick_resumes (cfg : Config) (s : MachineState)
    (h : s.armed = false) :
    (TC0_IrqHandler cfg s).armed = true ∧
    (TC0_IrqHandler cfg s).rxIrqEnabled = true ∧
    (TC0_IrqHandler cfg s).armCalls = s.armCalls + 1 ∧
    rtsAsserted (TC0_IrqHandler cfg s) = false := by
  simp [TC0_IrqHandler, h, rtsAsserted]

/-- Witness for C5 at a concrete suspended state. -/
theorem C5_tick_resumes_witness :
    (TC0_IrqHandler refConfig suspendedState).armed = true ∧
    (TC0_IrqHandler refConfig suspendedState).rxIrqEnabled = true ∧
    (TC0_IrqHandler refConfig suspendedState).armCalls
        = suspendedState.armCalls + 1 ∧
    rtsAsserted (TC0_IrqHandler refConfig suspendedState) = false :=
  C5_tick_resumes refConfig suspendedState rfl

/-- Conservation of counted bytes along any serialized run: the sum of
all reported epoch byte counts plus the pending counter equals the
number of handled completions (each worth one BUFFER_SIZE unit in the
reference configuration). -/
theorem conservation_aux :
    ∀ (es : List Event) (s : MachineState),
      (s.armed = true → s.bytesReceived < 500) →
      sumEpoch (run refConfig s es).reports
          + (run refConfig s es).bytesReceived
        = sumEpoch s.reports + s.bytesReceived
            + handledFrom refConfig s es := by
  intro es
  induction es with
  | nil => intro s _; simp [run_nil, handledFrom]
  | cons e es ih =>
      intro s hinv
      cases e with
      | complete =>
          by_cases hg : s.armed && s.rxIrqEnabled
          · have ha : s.armed = true := by
              cases h' : s.armed <;> simp [h'] at hg ⊢
            have hbr : s.bytesReceived < 500 := hinv ha
            have hstep : step refConfig s Event.complete
                = USART1_IrqHandler refConfig { s with armed := false } := by
              show (if s.armed && s.rxIrqEnabled then
                      USART1_IrqHandler refConfig { s with armed := false }
                    else s)
                    = USART1_IrqHandler refConfig { s with armed := false }
              simp [hg]
            have hmod : (s.bytesReceived + refConfig.BUFFER_SIZE) % 2 ^ 32
                = s.bytesReceived + 1 := by
              have : s.bytesReceived + 1 < 2 ^ 32 := by
                have : (2 : Nat) ^ 32 = 4294967296 := by norm_num
                omega
              simp [refConfig]
              omega
            have hhandled : handledFrom refConfig s (Event.complete :: es)
                = 1 + handledFrom refConfig
                    (step refConfig s Event.complete) es := by
              simp [handledFrom, hg]
            rw [run_cons, hhandled, hstep]
            simp only [USART1_IrqHandler, hmod]
            by_cases hlt : s.bytesReceived + 1 < refConfig.MAX_BPS
            · rw [if_pos (by simpa [refConfig] using hlt)]
              have := ih { s with bytesReceived := s.bytesReceived + 1,
                                  armed := true,
                                  armCalls := s.armCalls + 1 }
                (by intro _; simpa [refConfig] using hlt)
              dsimp only at this ⊢
              omega
            · rw [if_neg (by simpa [refConfig] using hlt)]
              have := ih { s with bytesReceived := s.bytesReceived + 1,
                                  armed := false,
                                  rxIrqEnabled := false }
                (by intro hcontra; simp at hcontra)
              dsimp only at this ⊢
              omega
          · have hstep : step refConfig s Event.complete = s := by
              show (if s.armed && s.rxIrqEnabled then
                      USART1_IrqHandler refConfig { s with armed := false }
                    else s) = s
              simp [hg]
            have hhandled : handledFrom refConfig s (Event.complete :: es)
                = handledFrom refConfig (step refConfig s Event.complete) es := by
              simp [handledFrom, hg]
            rw [run_cons, hhandled, hstep]
            exact ih s hinv
      | tick =>
          have hstep : step refConfig s Event.tick
              = TC0_IrqHandler refConfig s := rfl
          have hhandled : handledFrom refConfig s (Event.tick :: es)
              = handledFrom refConfig (step refConfig s Event.tick) es := by
            simp [handledFrom]
          have hsum : sumEpoch (TC0_IrqHandler refConfig s).reports
              = sumEpoch s.reports + s.bytesReceived := by
            rw [reports_tick]
            simp [sumEpoch]
          have hbr0 : (TC0_IrqHandler refConfig s).bytesReceived = 0 :=
            br_tick refConfig s
          have harm : (TC0_IrqHandler refConfig s).armed = true →
              (TC0_IrqHandler refConfig s).bytesReceived < 500 := by
            intro _; rw [hbr0]; omega
          rw [run_cons, hhandled, hstep]
          have := ih (TC0_IrqHandler refConfig s) harm
          rw [hsum, hbr0] at this
          omega

/-- Claim C2, amended.  When the two handlers execute serially (they
never preempt each other, as on the target where both interrupts share
one NVIC priority), every handled completion is attributed to exactly
one epoch: along any run, the reported epoch byte counts plus the
still-pending counter add up to exactly (handled completions) times
BUFFER_SIZE — never more (no double count), never less (no loss). -/
theorem C2_serialized_conservation (es : List Event) :
    sumEpoch (run refConfig initState es).reports
        + (run refConfig initState es).bytesReceived
      = handledFrom refConfig initState es * refConfig.BUFFER_SIZE := by
  have := conservation_aux es initState (by intro _; simp [initState])
  simp only [initState, sumEpoch, List.map_nil, List.sum_nil] at this
  simpa [refConfig] using this

/-- Counterexample to C2 as stated.  Under the actual code there is no
atomic read-and-reset: if a completion handler preempts the tick
handler between its sampling/emit phase and its reset of the counter
(an interleaving the fine-grained micro model makes explicit), the
completed unit is counted in neither epoch.  In the schedule below,
four completions are handled, yet the two emitted reports carry 3 and
0 epoch bytes: one unit vanished. -/
theorem C2_interleaving_cex :
    tickPart1 ++ tickPart2 = tickOps ∧
    countCompletions badSchedule = 4 ∧
    (microRun microInit badSchedule).reports = [(3, 3), (0, 3)] ∧
    sumEpoch (microRun microInit badSchedule).reports ≠ 4 * 1 := by
  refine ⟨rfl, rfl, ?_, ?_⟩ <;> decide

/-- Claim C9, amended (the arm primitive is modelled from the spec
because USART_ReadBuffer is library code outside this file).  The core
indeed never retries: each event causes at most one arm attempt.  But
it does NOT fail loudly on a refused request — the call sites discard
the USART_ReadBuffer status, so execution continues silently either
way (the aborted flag can never be set). -/
theorem C9_no_retry_no_abort :
    (∀ (cfg : Config) (s : MachineStateF) (e : EventF),
        (stepF cfg s e).armCalls ≤ s.armCalls + 1 ∧
        (stepF cfg s e).aborted = s.aborted) ∧
    (∀ es : List EventF, (runF refConfig initStateF es).aborted = false) := by
  have hstep : ∀ (cfg : Config) (s : MachineStateF) (e : EventF),
      (stepF cfg s e).armCalls ≤ s.armCalls + 1 ∧
      (stepF cfg s e).aborted = s.aborted := by
    intro cfg s e
    cases e with
    | complete ok =>
        simp only [stepF]
        split
        · split
          · cases ok <;> simp [armReceiveF]
          · simp
        · simp
    | tick ok =>
        simp only [stepF]
        split
        · simp
        · cases ok <;> simp [armReceiveF]
  refine ⟨hstep, ?_⟩
  have haux : ∀ (es : List EventF) (s : MachineStateF), s.aborted = false →
      (runF refConfig s es).aborted = false := by
    intro es
    induction es with
    | nil => intro s h; exact h
    | cons e es ih =>
        intro s h
        show (runF refConfig (stepF refConfig s e) es).aborted = false
        exact ih _ ((hstep refConfig s e).2.trans h)
  intro es
  exact haux es initStateF rfl

/-- Counterexample to C9 as stated.  A completion whose re-arm request
fails does not stop the program: no abort happens, the tick afterwards
still emits its report, and the only trace of the failure is that
reception silently stays un-armed (exactly the desynchronization the
spec warns about).  Also, only one arm attempt is made (no retry). -/
theorem C9_silent_continuation_cex :
    (runF refConfig initStateF
        [EventF.complete false, EventF.tick true]).aborted = false ∧
    (runF refConfig initStateF
        [EventF.complete false, EventF.tick true]).reports = [(1, 1)] ∧
    (stepF refConfig initStateF (EventF.complete false)).armCalls
        = initStateF.armCalls + 1 ∧
    (stepF refConfig initStateF (EventF.complete false)).armed = false := by
  refine ⟨?_, ?_, ?_, ?_⟩ <;> decide

/-- Claim C10 evaluated: sprintf always writes at least 25 bytes (the
format string yields a minimum of 24 characters, plus the terminating
NUL), but pString only has 24 bytes — the NUL lands out of bounds.  At
the claimed in-range input (500, 1500) exactly 25 bytes are written. -/
theorem C10_sprintf_overflow :
    pStringSize = 24 ∧ sprintfBytes 500 1500 = 25 ∧
    pStringSize < sprintfBytes 500 1500 ∧
    ∀ e t : Nat, pStringSize < sprintfBytes e t := by
  refine ⟨rfl, by decide, by decide, ?_⟩
  intro e t
  have h4 : 4 ≤ (padNum 4 e).length := by
    simp [padNum, List.length_append, List.length_replicate]
    omega
  have h6 : 6 ≤ (padNum 6 t).length := by
    simp [padNum, List.length_append, List.length_replicate]
    omega
  have hb : (( "Bps: ").data).length = 5 := rfl
  have ht : (( "; Tot: ").data).length = 7 := rfl
  simp only [sprintfBytes, pStringSize, reportChars, List.length_append,
    List.length_cons, List.length_nil, hb, ht]
  omega

/-- Invariant of the governor: the epoch counter never exceeds
MAX_BPS + (BUFFER_SIZE - 1), and whenever a receive is outstanding the
counter is still strictly below MAX_BPS. -/
theorem bound_aux (cfg : Config) (hT : 0 < cfg.MAX_BPS)
    (hTU : cfg.MAX_BPS + cfg.BUFFER_SIZE ≤ 2 ^ 32) :
    ∀ (es : List Event) (s : MachineState),
      s.bytesReceived ≤ cfg.MAX_BPS + (cfg.BUFFER_SIZE - 1) →
      (s.armed = true → s.bytesReceived < cfg.MAX_BPS) →
      (run cfg s es).bytesReceived ≤ cfg.MAX_BPS + (cfg.BUFFER_SIZE - 1) ∧
      ((run cfg s es).armed = true →
        (run cfg s es).bytesReceived < cfg.MAX_BPS) := by
  intro es
  induction es with
  | nil => intro s h1 h2; exact ⟨h1, h2⟩
  | cons e es ih =>
      intro s h1 h2
      cases e with
      | complete =>
          by_cases hg : s.armed && s.rxIrqEnabled
          · have ha : s.armed = true := by
              cases h' : s.armed <;> simp [h'] at hg ⊢
            have hbr : s.bytesReceived < cfg.MAX_BPS := h2 ha
            have hstep : step cfg s Event.complete
                = USART1_IrqHandler cfg { s with armed := false } := by
              show (if s.armed && s.rxIrqEnabled then
                      USART1_IrqHandler cfg { s with armed := false }
                    else s)
                    = USART1_IrqHandler cfg { s with armed := false }
              simp [hg]
            have hmod : (s.bytesReceived + cfg.BUFFER_SIZE) % 2 ^ 32
                = s.bytesReceived + cfg.BUFFER_SIZE :=
              Nat.mod_eq_of_lt (by omega)
            rw [run_cons, hstep]
            simp only [USART1_IrqHandler, hmod]
            by_cases hlt : s.bytesReceived + cfg.BUFFER_SIZE < cfg.MAX_BPS
            · rw [if_pos hlt]
              exact ih _ (by dsimp only; omega) (by dsimp only; omega)
            · rw [if_neg hlt]
              exact ih _ (by dsimp only; omega)
                (by intro hcontra; simp at hcontra)
          · have hstep : step cfg s Event.complete = s := by
              show (if s.armed && s.rxIrqEnabled then
                      USART1_IrqHandler cfg { s with armed := false }
                    else s) = s
              simp [hg]
            rw [run_cons, hstep]
            exact ih s h1 h2
      | tick =>
          rw [run_cons]
          have hbr0 : (step cfg s Event.tick).bytesReceived = 0 :=
            br_tick cfg s
          exact ih _ (by omega) (by intro _; omega)

/-- Claim C6.  In every state reachable from startup, bytesReceived is
at most MAX_BPS + (BUFFER_SIZE - 1) — the epoch total can overshoot
the threshold by at most one transfer unit minus one byte — and one
further step of either handler preserves the bound. -/
theorem C6_slack_bound (cfg : Config) (hT : 0 < cfg.MAX_BPS)
    (hTU : cfg.MAX_BPS + cfg.BUFFER_SIZE ≤ 2 ^ 32) (es : List Event) :
    (run cfg initState es).bytesReceived
        ≤ cfg.MAX_BPS + (cfg.BUFFER_SIZE - 1) ∧
    ∀ e : Event, (step cfg (run cfg initState es) e).bytesReceived
        ≤ cfg.MAX_BPS + (cfg.BUFFER_SIZE - 1) := by
  constructor
  · exact (bound_aux cfg hT hTU es initState (by simp [initState])
      (by intro _; simpa [initState] using hT)).1
  · intro e
    have h := bound_aux cfg hT hTU (es ++ [e]) initState
      (by simp [initState])
      (by intro _; simpa [initState] using hT)
    rw [run_append] at h
    exact h.1

/-- Witness for C6 at the reference configuration on a short trace. -/
theorem C6_slack_bound_witness :
    (run refConfig initState [Event.complete, Event.tick]).bytesReceived
        ≤ refConfig.MAX_BPS + (refConfig.BUFFER_SIZE - 1) ∧
    ∀ e : Event,
      (step refConfig (run refConfig initState [Event.complete, Event.tick])
          e).bytesReceived
        ≤ refConfig.MAX_BPS + (refConfig.BUFFER_SIZE - 1) :=
  C6_slack_bound refConfig (by decide) (by norm_num [refConfig])
    [Event.complete, Event.tick]

/-- Along a valid all-completions trace, the counter advances by
exactly BUFFER_SIZE per event and neither the total nor the report
list changes. -/
theorem run_completes (cfg : Config) (hT : 0 < cfg.MAX_BPS)
    (hTU : cfg.MAX_BPS + cfg.BUFFER_SIZE ≤ 2 ^ 32) :
    ∀ (es : List Event) (s : MachineState),
      (∀ e ∈ es, e = Event.complete) →
      validFrom cfg s es = true →
      (s.armed = true → s.bytesReceived < cfg.MAX_BPS) →
      (run cfg s es).bytesReceived
          = s.bytesReceived + es.length * cfg.BUFFER_SIZE ∧
      ((run cfg s es).armed = true →
          (run cfg s es).bytesReceived < cfg.MAX_BPS) ∧
      (run cfg s es).bytesTotal = s.bytesTotal ∧
      (run cfg s es).reports = s.reports := by
  intro es
  induction es with
  | nil => intro s _ _ hinv; exact ⟨by simp [run_nil], hinv, rfl, rfl⟩
  | cons e es ih =>
      intro s hall hval hinv
      have he : e = Event.complete := hall e (List.mem_cons_self e es)
      subst he
      have hval' := hval
      simp only [validFrom, Bool.and_eq_true] at hval'
      obtain ⟨⟨ha, he2⟩, hval2⟩ := hval'
      have hg : (s.armed && s.rxIrqEnabled) = true := by
        rw [ha, he2]; rfl
      have hbr : s.bytesReceived < cfg.MAX_BPS := hinv ha
      have hstep : step cfg s Event.complete
          = USART1_IrqHandler cfg { s with armed := false } := by
        show (if s.armed && s.rxIrqEnabled then
                USART1_IrqHandler cfg { s with armed := false }
              else s)
              = USART1_IrqHandler cfg { s with armed := false }
        simp [hg]
      have hmod : (s.bytesReceived + cfg.BUFFER_SIZE) % 2 ^ 32
          = s.bytesReceived + cfg.BUFFER_SIZE :=
        Nat.mod_eq_of_lt (by omega)
      have hlen : (Event.complete :: es).length * cfg.BUFFER_SIZE
          = es.length * cfg.BUFFER_SIZE + cfg.BUFFER_SIZE := by
        simp [List.length_cons, Nat.succ_mul]
      rw [run_cons]
      rw [hstep] at hval2 ⊢
      simp only [USART1_IrqHandler, hmod] at hval2 ⊢
      by_cases hlt : s.bytesReceived + cfg.BUFFER_SIZE < cfg.MAX_BPS
      · rw [if_pos hlt] at hval2 ⊢
        have := ih _ (fun e hin => hall e (List.mem_cons_of_mem _ hin))
          hval2 (by intro _; dsimp only; omega)
        dsimp only at this
        rw [hlen]
        exact ⟨by omega, this.2.1, this.2.2.1, this.2.2.2⟩
      · rw [if_neg hlt] at hval2 ⊢
        have := ih _ (fun e hin => hall e (List.mem_cons_of_mem _ hin))
          hval2 (by intro hcontra; simp at hcontra)
        dsimp only at this
        rw [hlen]
        exact ⟨by omega, this.2.1, this.2.2.1, this.2.2.2⟩

/-- Claim C3.  Starting from an epoch boundary (the counter is zero),
any physically valid sequence of completion events leaves
bytesReceived at exactly (number of completions) x BUFFER_SIZE, and
the following tick samples and reports exactly that value. -/
theorem C3_epoch_conservation (cfg : Config) (s : MachineState)
    (es : List Event) (hT : 0 < cfg.MAX_BPS)
    (hTU : cfg.MAX_BPS + cfg.BUFFER_SIZE ≤ 2 ^ 32)
    (hall : ∀ e ∈ es, e = Event.complete)
    (hval : validFrom cfg s es = true)
    (h0 : s.bytesReceived = 0) :
    (run cfg s es).bytesReceived = es.length * cfg.BUFFER_SIZE ∧
    (TC0_IrqHandler cfg (run cfg s es)).reports
      = (run cfg s es).reports
        ++ [(es.length * cfg.BUFFER_SIZE,
             ((run cfg s es).bytesTotal
                + es.length * cfg.BUFFER_SIZE) % 2 ^ 32)] := by
  have h := run_completes cfg hT hTU es s hall hval (by intro _; omega)
  have hbr : (run cfg s es).bytesReceived = es.length * cfg.BUFFER_SIZE := by
    rw [h.1, h0]; omega
  refine ⟨hbr, ?_⟩
  rw [reports_tick, hbr]

/-- Witness for C3: three completions from startup. -/
theorem C3_epoch_conservation_witness :
    (run refConfig initState
        [Event.complete, Event.complete, Event.complete]).bytesReceived
      = [Event.complete, Event.complete, Event.complete].length
          * refConfig.BUFFER_SIZE ∧
    (TC0_IrqHandler refConfig
        (run refConfig initState
          [Event.complete, Event.complete, Event.complete])).reports
      = (run refConfig initState
            [Event.complete, Event.complete, Event.complete]).reports
        ++ [([Event.complete, Event.complete, Event.complete].length
                * refConfig.BUFFER_SIZE,
             ((run refConfig initState
                  [Event.complete, Event.complete, Event.complete]).bytesTotal
                + [Event.complete, Event.complete, Event.complete].length
                    * refConfig.BUFFER_SIZE) % 2 ^ 32)] :=
  C3_epoch_conservation refConfig initState
    [Event.complete, Event.complete, Event.complete]
    (by decide) (by norm_num [refConfig]) (by decide) (by decide) rfl

/-- Closed form of a run of j completions in the reference
configuration, starting from an armed state with counter b, as long as
b + j stays within the threshold. -/
theorem run_rep_complete :
    ∀ (j b : Nat) (s : MachineState),
      s.bytesReceived = b → s.armed = true → s.rxIrqEnabled = true →
      b + j ≤ 500 → b < 500 →
      run refConfig s (List.replicate j Event.complete)
        = { s with bytesReceived := b + j,
                   armed := decide (b + j < 500),
                   rxIrqEnabled := decide (b + j < 500),
                   armCalls := if b + j < 500 then s.armCalls + j
                               else s.armCalls + j - 1 } := by
  intro j
  induction j with
  | zero =>
      intro b s hb ha he _ hb5
      subst hb
      rw [List.replicate_zero, run_nil]
      rw [if_pos (by omega)]
      apply MachineState.ext <;> dsimp only <;>
        first
          | rfl
          | omega
          | (rw [ha]; exact (decide_eq_true (by omega)).symm)
          | (rw [he]; exact (decide_eq_true (by omega)).symm)
  | succ j ih =>
      intro b s hb ha he hle hb5
      subst hb
      rw [List.replicate_succ, run_cons]
      have hg : (s.armed && s.rxIrqEnabled) = true := by rw [ha, he]; rfl
      have hstep : step refConfig s Event.complete
          = USART1_IrqHandler refConfig { s with armed := false } := by
        show (if s.armed && s.rxIrqEnabled then
                USART1_IrqHandler refConfig { s with armed := false }
              else s)
              = USART1_IrqHandler refConfig { s with armed := false }
        simp [hg]
      have hmod : (s.bytesReceived + refConfig.BUFFER_SIZE) % 2 ^ 32
          = s.bytesReceived + 1 := by
        have : s.bytesReceived + 1 < 2 ^ 32 := by
          have : (2 : Nat) ^ 32 = 4294967296 := by norm_num
          omega
        simp [refConfig]
        omega
      rw [hstep]
      simp only [USART1_IrqHandler, hmod]
      by_cases hlt : s.bytesReceived + 1 < 500
      · rw [if_pos (by simpa [refConfig] using hlt)]
        have hIH := ih (s.bytesReceived + 1)
          { s with bytesReceived := s.bytesReceived + 1, armed := true,
                   armCalls := s.armCalls + 1 }
          rfl rfl (by dsimp only; exact he) (by omega) hlt
        have hrw : s.bytesReceived + 1 + j = s.bytesReceived + (j + 1) := by
          omega
        rw [hrw] at hIH
        rw [hIH]
        by_cases hfin : s.bytesReceived + (j + 1) < 500
        · rw [if_pos hfin, if_pos hfin]
          apply MachineState.ext <;> dsimp only <;> first | rfl | omega
        · rw [if_neg hfin, if_neg hfin]
          apply MachineState.ext <;> dsimp only <;> first | rfl | omega
      · have hj0 : j = 0 := by omega
        subst hj0
        rw [if_neg (by simpa [refConfig] using hlt)]
        rw [List.replicate_zero, run_nil]
        have hcond : ¬ (s.bytesReceived + (0 + 1) < 500) := by omega
        rw [if_neg hcond]
        apply MachineState.ext <;> dsimp only <;>
          first
            | rfl
            | omega
            | (rw [decide_eq_false hcond])

/-- Closed form of one full epoch (500 completions then the tick) in
the reference configuration. -/
theorem run_epoch (s : MachineState) (h0 : s.bytesReceived = 0)
    (ha : s.armed = true) (he : s.rxIrqEnabled = true) :
    run refConfig s epochTrace
      = { bytesReceived := 0,
          bytesTotal := (s.bytesTotal + 500) % 2 ^ 32,
          armed := true, rxIrqEnabled := true,
          armCalls := s.armCalls + 500,
          reports := s.reports ++ [(500, (s.bytesTotal + 500) % 2 ^ 32)] } := by
  rw [epochTrace, run_append]
  rw [run_rep_complete 500 0 s h0 ha he (by omega) (by omega)]
  rw [if_neg (by omega)]
  have hdf : (decide (0 + 500 < 500)) = false := by decide
  rw [hdf]
  rw [run_cons, run_nil]
  simp only [step, TC0_IrqHandler]
  rw [if_neg (by simp)]
  apply MachineState.ext <;> dsimp only <;>
    first
      | rfl
      | omega
      | norm_num

set_option maxRecDepth 4096

/-- Closed form of k consecutive full epochs from an epoch boundary:
the running total advances by 500 per epoch modulo 2 ^ 32, and the
i-th report carries epoch count 500 and total (t + 500 (i + 1)) mod
2 ^ 32. -/
theorem run_kEpochs :
    ∀ (k : Nat) (s : MachineState),
      s.bytesReceived = 0 → s.armed = true → s.rxIrqEnabled = true →
      s.bytesTotal < 2 ^ 32 →
      run refConfig s (kEpochs k)
        = { bytesReceived := 0,
            bytesTotal := (s.bytesTotal + 500 * k) % 2 ^ 32,
            armed := true, rxIrqEnabled := true,
            armCalls := s.armCalls + 500 * k,
            reports := s.reports ++ (List.range k).map
                (fun i => (500, (s.bytesTotal + 500 * (i + 1)) % 2 ^ 32)) } := by
  intro k
  induction k with
  | zero =>
      intro s h0 ha he ht
      rw [kEpochs, List.replicate_zero, List.flatten_nil, run_nil]
      apply MachineState.ext <;> dsimp only <;>
        first
          | exact h0
          | exact ha
          | exact he
          | rfl
          | (rw [Nat.mul_zero, Nat.add_zero]; exact (Nat.mod_eq_of_lt ht).symm)
          | simp
  | succ k ih =>
      intro s h0 ha he ht
      have hsplit : kEpochs (k + 1) = epochTrace ++ kEpochs k := by
        rw [kEpochs, kEpochs, List.replicate_succ, List.flatten_cons]
      rw [hsplit, run_append, run_epoch s h0 ha he]
      rw [ih { bytesReceived := 0,
               bytesTotal := (s.bytesTotal + 500) % 2 ^ 32,
               armed := true, rxIrqEnabled := true,
               armCalls := s.armCalls + 500,
               reports := s.reports
                 ++ [(500, (s.bytesTotal + 500) % 2 ^ 32)] }
           rfl rfl rfl (Nat.mod_lt _ (by norm_num))]
      dsimp only
      have htot : ((s.bytesTotal + 500) % 2 ^ 32 + 500 * k) % 2 ^ 32
          = (s.bytesTotal + 500 * (k + 1)) % 2 ^ 32 := by
        rw [Nat.mod_add_mod]
        congr 1
        ring
      have hcalls : s.armCalls + 500 + 500 * k
          = s.armCalls + 500 * (k + 1) := by ring
      have hreps : (s.reports ++ [(500, (s.bytesTotal + 500) % 2 ^ 32)])
            ++ (List.range k).map
              (fun i => (500,
                ((s.bytesTotal + 500) % 2 ^ 32 + 500 * (i + 1)) % 2 ^ 32))
          = s.reports ++ (List.range (k + 1)).map
              (fun i => (500, (s.bytesTotal + 500 * (i + 1)) % 2 ^ 32)) := by
        rw [List.append_assoc]
        congr 1
        rw [List.singleton_append]
        rw [List.range_succ_eq_map]
        rw [List.map_cons]
        rw [List.cons_eq_cons]
        refine ⟨by norm_num, ?_⟩
        rw [List.map_map]
        apply List.map_congr_left
        intro a ha
        simp only [Function.comp_apply, Nat.succ_eq_add_one, Prod.mk.injEq]
        exact ⟨trivial, by omega⟩
      rw [htot, hcalls, hreps]

/-- A completion step moves bytesReceived up by at most BUFFER_SIZE. -/
theorem br_step_complete_le (cfg : Config) (s : MachineState) :
    (step cfg s Event.complete).bytesReceived
      ≤ s.bytesReceived + cfg.BUFFER_SIZE := by
  show (if s.armed && s.rxIrqEnabled then
          USART1_IrqHandler cfg { s with armed := false }
        else s).bytesReceived
        ≤ s.bytesReceived + cfg.BUFFER_SIZE
  split
  · simp only [USART1_IrqHandler]
    split <;> exact Nat.mod_le _ _
  · omega

/-- While the cumulative number of handled completions stays below
2 ^ 32, the reported totals never wrap, so they are non-decreasing
along the report list. -/
theorem mono_aux :
    ∀ (es : List Event) (s : MachineState),
      s.bytesTotal + s.bytesReceived + handledFrom refConfig s es < 2 ^ 32 →
      List.Pairwise (· ≤ ·) (s.reports.map Prod.snd) →
      (∀ x ∈ s.reports.map Prod.snd, x ≤ s.bytesTotal) →
      List.Pairwise (· ≤ ·) ((run refConfig s es).reports.map Prod.snd) := by
  intro es
  induction es with
  | nil => intro s _ hp _; simpa [run_nil] using hp
  | cons e es ih =>
      intro s hlt hp hb
      cases e with
      | complete =>
          rw [run_cons]
          by_cases hg : s.armed && s.rxIrqEnabled
          · have hhandled : handledFrom refConfig s (Event.complete :: es)
                = 1 + handledFrom refConfig
                    (step refConfig s Event.complete) es := by
              simp [handledFrom, hg]
            have hbr := br_step_complete_le refConfig s
            have hU : refConfig.BUFFER_SIZE = 1 := rfl
            rw [hU] at hbr
            have htc := total_step_complete refConfig s
            apply ih
            · rw [htc]; rw [hhandled] at hlt; omega
            · rw [reports_step_complete]; exact hp
            · rw [reports_step_complete, htc]; exact hb
          · have hstep : step refConfig s Event.complete = s := by
              show (if s.armed && s.rxIrqEnabled then
                      USART1_IrqHandler refConfig { s with armed := false }
                    else s) = s
              simp [hg]
            have hhandled : handledFrom refConfig s (Event.complete :: es)
                = handledFrom refConfig
                    (step refConfig s Event.complete) es := by
              simp [handledFrom, hg]
            rw [hstep]
            rw [hhandled, hstep] at hlt
            exact ih s (by omega) hp hb
      | tick =>
          rw [run_cons]
          have hhandled : handledFrom refConfig s (Event.tick :: es)
              = handledFrom refConfig (step refConfig s Event.tick) es := rfl
          rw [hhandled] at hlt
          have hmodid : (s.bytesTotal + s.bytesReceived) % 2 ^ 32
              = s.bytesTotal + s.bytesReceived :=
            Nat.mod_eq_of_lt (by omega)
          have htot := total_tick refConfig s
          have hrep := reports_tick refConfig s
          have hbr0 := br_tick refConfig s
          apply ih
          · show (TC0_IrqHandler refConfig s).bytesTotal
                + (TC0_IrqHandler refConfig s).bytesReceived
                + handledFrom refConfig (TC0_IrqHandler refConfig s) es
              < 2 ^ 32
            rw [htot, hbr0, hmodid]
            exact hlt
          · show List.Pairwise (· ≤ ·)
              ((TC0_IrqHandler refConfig s).reports.map Prod.snd)
            rw [hrep, hmodid, List.map_append, List.pairwise_append]
            refine ⟨hp, by simp, ?_⟩
            intro a hain b hbin
            simp only [List.map_cons, List.map_nil, List.mem_singleton]
              at hbin
            have := hb a hain
            omega
          · show ∀ x ∈ (TC0_IrqHandler refConfig s).reports.map Prod.snd,
                x ≤ (TC0_IrqHandler refConfig s).bytesTotal
            rw [hrep, htot, hmodid, List.map_append]
            intro x hx
            rcases List.mem_append.mp hx with hx1 | hx2
            · have := hb x hx1
              omega
            · simp only [List.map_cons, List.map_nil, List.mem_singleton]
                at hx2
              omega

/-- Claim C8, amended.  TotalByteCount is updated exactly once per
tick, by adding the just-sampled EpochByteCount modulo 2 ^ 32 (it is a
uint32_t), and the sequence of reported totals is non-decreasing along
the run as long as the cumulative intake stays below 2 ^ 32 bytes —
beyond that the counter wraps and monotonicity fails. -/
theorem C8_total_update_monotone :
    (∀ s : MachineState,
        (TC0_IrqHandler refConfig s).bytesTotal
          = (s.bytesTotal + s.bytesReceived) % 2 ^ 32 ∧
        (TC0_IrqHandler refConfig s).reports
          = s.reports
            ++ [(s.bytesReceived,
                 (s.bytesTotal + s.bytesReceived) % 2 ^ 32)]) ∧
    ∀ es : List Event, handledFrom refConfig initState es < 2 ^ 32 →
      List.Pairwise (· ≤ ·)
        ((run refConfig initState es).reports.map Prod.snd) := by
  refine ⟨fun s => ⟨total_tick refConfig s, reports_tick refConfig s⟩, ?_⟩
  intro es h
  apply mono_aux
  · simpa [initState] using h
  · simp [initState]
  · simp [initState]

/-- Witness for C8 (amended form) on a short concrete trace. -/
theorem C8_total_update_monotone_witness :
    List.Pairwise (· ≤ ·)
      ((run refConfig initState
          [Event.tick, Event.complete, Event.tick]).reports.map Prod.snd) :=
  C8_total_update_monotone.2 [Event.tick, Event.complete, Event.tick]
    (by decide)

/-- Counterexample to C8 as stated.  bytesTotal is a uint32_t and
wraps: after 8589935 full epochs of 500 bytes the cumulative count
passes 2 ^ 32, so the report of tick 8589935 shows total 204 while the
report of the immediately preceding tick showed 4294967000 — the
reported totals are not monotone across the entire run. -/
theorem C8_wraparound_cex :
    (run refConfig initState (kEpochs 8589935)).reports[8589933]?
        = some (500, 4294967000) ∧
    (run refConfig initState (kEpochs 8589935)).reports[8589934]?
        = some (500, 204) ∧
    ¬ ((4294967000 : Nat) ≤ 204) := by
  have h := run_kEpochs 8589935 initState rfl rfl rfl
    (by norm_num [initState])
  rw [h]
  dsimp only
  have hrep : initState.reports = [] := rfl
  rw [hrep, List.nil_append]
  refine ⟨?_, ?_, by norm_num⟩
  · rw [List.getElem?_map, List.getElem?_range (by norm_num)]
    simp only [Option.map_some', Prod.mk.injEq]
    norm_num [initState]
  · rw [List.getElem?_map, List.getElem?_range (by norm_num)]
    simp only [Option.map_some', Prod.mk.injEq]
    norm_num [initState]

/-- The digit list of a value below 10 ^ k has at most k digits
(whatever the fuel). -/
theorem natCharsAux_length_le :
    ∀ (fuel n k : Nat), 0 < k → n < 10 ^ k →
      (natCharsAux fuel n).length ≤ k := by
  intro fuel
  induction fuel with
  | zero => intro n k hk _; simp [natCharsAux]
  | succ f ih =>
      intro n k hk hn
      by_cases h10 : n < 10
      · simp only [natCharsAux, if_pos h10, List.length_cons,
          List.length_nil]
        omega
      · simp only [natCharsAux, if_neg h10, List.length_append,
          List.length_cons, List.length_nil]
      -- n has at least two digits, so k is at least 2
        have hk2 : 2 ≤ k := by
          by_contra hcon
          have hk1 : k = 1 := by omega
          subst hk1
          simp at hn
          omega
        have hpow : 10 ^ (k - 1) * 10 = 10 ^ k := by
          rw [← pow_succ]
          congr 1
          omega
        have hdiv : n / 10 < 10 ^ (k - 1) := by
          rw [Nat.div_lt_iff_lt_mul (by norm_num)]
          rw [hpow]
          exact hn
        have := ih (n / 10) (k - 1) (by omega) hdiv
        omega

/-- A value below 10 ^ k prints in at most k digit characters. -/
theorem natChars_length_le {n k : Nat} (hk : 0 < k) (hn : n < 10 ^ k) :
    (natChars n).length ≤ k :=
  natCharsAux_length_le (n + 1) n k hk hn

/-- When the digits fit in the field, %wu produces exactly w
characters. -/
theorem padNum_length_eq {w n : Nat} (h : (natChars n).length ≤ w) :
    (padNum w n).length = w := by
  simp only [padNum, List.length_append, List.length_replicate]
  omega

/-- For epoch counts below 10 ^ 4 and totals below 10 ^ 6 the whole
formatted line is exactly 24 characters. -/
theorem reportChars_length_24 {e t : Nat} (he : e < 10000)
    (ht : t < 1000000) : (reportChars e t).length = 24 := by
  have h4 : (padNum 4 e).length = 4 :=
    padNum_length_eq (natChars_length_le (by norm_num)
      (by norm_num at he ⊢; omega))
  have h6 : (padNum 6 t).length = 6 :=
    padNum_length_eq (natChars_length_le (by norm_num)
      (by norm_num at ht ⊢; omega))
  have hb : (( "Bps: ").data).length = 5 := rfl
  have htt : (( "; Tot: ").data).length = 7 := rfl
  simp only [reportChars, List.length_append, List.length_cons,
    List.length_nil, hb, htt, h4, h6]

/-- Claim C7, amended.  As long as the total fits the %6u field
(totalBytes below 10 ^ 6; epoch counts always fit %4u since they never
exceed 500), the 24 bytes transmitted per report are exactly the line
Bps: <4-char count>; Tot: <6-char total> followed by the "\n\r"
terminator; in particular (500, 1500) yields the exact example line.
(Wider totals overflow the field and the fixed 24-byte write then
truncates the terminator.) -/
theorem C7_format (e t : Nat) (he : e < 10000) (ht : t < 1000000) :
    emittedChars e t = reportChars e t ∧
    (reportChars e t).length = 24 ∧
    emittedChars 500 1500 = ( "Bps:  500; Tot:   1500\n\r").data := by
  refine ⟨?_, reportChars_length_24 he ht, by decide⟩
  unfold emittedChars
  apply List.take_of_length_le
  rw [reportChars_length_24 he ht]

/-- Witness for C7 at the example values of the claim. -/
theorem C7_format_witness :
    emittedChars 500 1500 = reportChars 500 1500 ∧
    (reportChars 500 1500).length = 24 ∧
    emittedChars 500 1500 = ( "Bps:  500; Tot:   1500\n\r").data :=
  C7_format 500 1500 (by norm_num) (by norm_num)

/-- Counterexample to C7 as stated.  A run of 2000 full epochs is
reachable and its last report is (500, 1000000): the total now needs
7 characters, the sprintf output grows to 25 characters, and the fixed
24-byte transmission cuts the line short — the emitted bytes are no
longer the exact formatted line and the "\n\r" terminator loses its
final character. -/
theorem C7_truncation_cex :
    (run refConfig initState (kEpochs 2000)).reports[1999]?
        = some (500, 1000000) ∧
    emittedChars 500 1000000 ≠ reportChars 500 1000000 ∧
    (reportChars 500 1000000).length = 25 ∧
    (emittedChars 500 1000000).getLast? = some (Char.ofNat 10) := by
  refine ⟨?_, by decide, by decide, by decide⟩
  have h := run_kEpochs 2000 initState rfl rfl rfl
    (by norm_num [initState])
  rw [h]
  dsimp only
  have hrep : initState.reports = [] := rfl
  rw [hrep, List.nil_append]
  rw [List.getElem?_map, List.getElem?_range (by norm_num)]
  simp only [Option.map_some', Prod.mk.injEq]
  norm_num [initState]

end UsartHH
